import Mathlib

/-!
Shallow embedding of the Themelio state-transition function's batch applier
(`src/state/applytx.rs`) and of the covenant-VM arithmetic exercised by
`src/testing/opcodes.rs`, together with theorems settling the specification
claims about them.

External collaborators of the applier (themelio_structs data types, the
tmelcrypt hashes, stdcode serialization, the melpow verifier and the melmint
reward curve) are not part of this repository's sources; they enter the
embedding either as explicit function parameters or as small executable
models, each marked in its doc comment.
-/

namespace ThemelioSTF

/-- The u128 modulus: coin values and the fee/tip accumulators are Rust
`u128`s, so arithmetic on them is carried out modulo `2 ^ 128`. -/
def U128LIM : Nat := 2 ^ 128

/-- Denomination of a coin (themelio_structs `Denom`, as used by
`applytx.rs`): the two native units, the mined unit, the "new token"
marker, and custom tokens keyed by the defining transaction's hash. -/
inductive Denom where
  | mel
  | sym
  | erg
  | newCoin
  | custom (definer : Nat)
deriving DecidableEq

/-- themelio_structs `CoinID`: (origin transaction hash, output index).
Hashes are modelled as natural numbers. -/
structure CoinID where
  txhash : Nat
  index : Nat
deriving DecidableEq

/-- themelio_structs `CoinData`. The destination covenant hash (`Address`)
and the opaque additional data are likewise modelled over `Nat`. -/
structure CoinData where
  value : Nat
  denom : Denom
  additional_data : List Nat
  covhash : Nat
deriving DecidableEq

/-- themelio_structs `CoinDataHeight`: a coin plus its creation height. -/
structure CoinDataHeight where
  coin_data : CoinData
  height : Nat
deriving DecidableEq

/-- themelio_structs `TxKind`, covering the kinds `applytx.rs` dispatches on. -/
inductive TxKind where
  | normal
  | faucet
  | stake
  | doscMint
  | swap
  | liqDeposit
  | liqWithdraw
deriving DecidableEq

/-- themelio_structs `Transaction`. Covenant scripts, payload and signatures
are byte strings, modelled as lists of naturals. -/
structure Transaction where
  kind : TxKind
  inputs : List CoinID
  outputs : List CoinData
  fee : Nat
  covenants : List (List Nat)
  data : List Nat
  sigs : List (List Nat)
deriving DecidableEq

/-- themelio_structs `StakeDoc`: staker key, start epoch, post-end epoch and
locked amount of the staking unit. -/
structure StakeDoc where
  pubkey : Nat
  e_start : Nat
  e_post_end : Nat
  syms_staked : Nat
deriving DecidableEq

/-- themelio_structs `NetID`, restricted to the networks `applytx.rs`
distinguishes (mainnet and testnet are special-cased; any other network is
represented by the custom variants). -/
inductive NetID where
  | mainnet
  | testnet
  | custom02
  | custom03
deriving DecidableEq

/-- The applier's error type (`StateError` in the crate root). -/
inductive StateError where
  | duplicateTx
  | malformedTx
  | unbalancedInOut
  | insufficientFees (min_fee : Nat)
  | nonexistentCoin (c : CoinID)
  | nonexistentScript (covhash : Nat)
  | violatesScript (covhash : Nat)
  | coinLocked
  | invalidMelPoW
deriving DecidableEq

/-- `STAKE_EPOCH` from `src/constants.rs`: a stake epoch is 200,000 blocks.
`BlockHeight::epoch()` (themelio_structs) is height divided by this. -/
def STAKE_EPOCH : Nat := 200000

/-- The observable slice of a `StateHandle`: the network and height of the
wrapped state, and the merged (overlay-over-state) views of the coin mapping
and the stake registry, each modelled as a point-lookup function exactly as
`get_coin`/`get_stake` expose them. -/
structure SHandle where
  network : NetID
  height : Nat
  coins : CoinID → Option CoinDataHeight
  stakes : Nat → Option StakeDoc

/-- Association-list lookup for the per-denomination value maps
(`FxHashMap<Denom, u128>` in the source). -/
def lookupD : List (Denom × Nat) → Denom → Option Nat
  | [], _ => none
  | (d, v) :: rest, d' => if d = d' then some v else lookupD rest d'

/-- `m.insert(d, m.get(&d).unwrap_or(&0) + v)`: add `v` to the entry of `d`
(u128 addition, hence modulo `2 ^ 128`), inserting it if absent. -/
def insertAdd : List (Denom × Nat) → Denom → Nat → List (Denom × Nat)
  | [], d, v => [(d, v % U128LIM)]
  | (d', v') :: rest, d, v =>
    if d' = d then (d', (v' + v) % U128LIM) :: rest else (d', v') :: insertAdd rest d v

/-- themelio_structs `Transaction::total_outputs` as `apply_tx_inputs` uses
it: the outputs' values summed per denomination, denominations taken as
written (the "new token" marker is not resolved here). -/
def total_outputs (tx : Transaction) : List (Denom × Nat) :=
  tx.outputs.foldl (fun m cd => insertAdd m cd.denom cd.value) []

/-- The spend context handed to the covenant VM for one input
(`CovenantEnv` in `melvm`): the spent coin id, its coin-data-with-height,
the input's position among the transaction's inputs (a `u8` in the source,
hence reduced modulo 256), and the most recent sealed header (abstract). -/
structure CovenantEnv where
  parent_coinid : CoinID
  parent_cdh : CoinDataHeight
  spender_index : Nat
  last_header : Nat

/-- The input loop of `StateHandle::apply_tx_inputs` (applytx.rs lines
187-230). `cov_hash` models `Covenant::hash` and `cov_check` models
`Covenant::check` (melvm, external to this file's sources). The loop walks
the enumerated inputs, rejecting a coin whose originating transaction hash
has a registered stake (`CoinLocked`), a missing coin (`NonexistentCoin`),
a destination hash matched by no supplied covenant (`NonexistentScript`,
via `covenants_as_map`) and a failing covenant (`ViolatesScript`); a
destination hash already in `good_scripts` skips evaluation. Each spent
coin is deleted from the threaded coin view and its value accumulated into
`in_coins`. Besides the accumulated `in_coins` the function returns the
evaluation log: the covenant hashes actually evaluated, most recent first
(the source does not log; the log makes the number of evaluations an
observable of the model and is otherwise inert). `script_gate` is the
per-input script-location-and-evaluation step (applytx.rs lines 202-221),
hoisted out of the loop: skip when the destination hash is already in
`good_scripts`, locate the covenant by hash otherwise, evaluate it, and on
success record the hash in `good_scripts` and in the log. -/
def script_gate (cov_hash : List Nat → Nat)
    (cov_check : List Nat → Transaction → CovenantEnv → Bool)
    (tx : Transaction) (last_header spend_idx : Nat) (coin_id : CoinID)
    (coin_data : CoinDataHeight) (good_scripts log : List Nat) :
    Except StateError (List Nat × List Nat) :=
  if good_scripts.contains coin_data.coin_data.covhash then .ok (good_scripts, log)
  else
    match tx.covenants.find?
        (fun s => cov_hash s == coin_data.coin_data.covhash) with
    | none => .error (.nonexistentScript coin_data.coin_data.covhash)
    | some script =>
      if cov_check script tx ⟨coin_id, coin_data, spend_idx % 256, last_header⟩ then
        .ok (coin_data.coin_data.covhash :: good_scripts,
          coin_data.coin_data.covhash :: log)
      else .error (.violatesScript coin_data.coin_data.covhash)

/-- The input loop proper: `script_gate` threaded over the enumerated
inputs, with the stake-lock and coin-existence checks in front and the
coin deletion and value accumulation behind, as in the source. -/
def apply_tx_inputs_go (cov_hash : List Nat → Nat)
    (cov_check : List Nat → Transaction → CovenantEnv → Bool)
    (tx : Transaction) (last_header : Nat) (stakes : Nat → Option StakeDoc) :
    List (Nat × CoinID) → (CoinID → Option CoinDataHeight) → List Nat →
    List (Denom × Nat) → List Nat →
    Except StateError (List (Denom × Nat) × List Nat)
  | [], _, _, in_coins, log => .ok (in_coins, log)
  | (spend_idx, coin_id) :: rest, coins, good_scripts, in_coins, log =>
    if (stakes coin_id.txhash).isSome then .error .coinLocked
    else
      match coins coin_id with
      | none => .error (.nonexistentCoin coin_id)
      | some coin_data =>
        match script_gate cov_hash cov_check tx last_header spend_idx coin_id
            coin_data good_scripts log with
        | .error e => .error e
        | .ok (good_scripts', log') =>
          apply_tx_inputs_go cov_hash cov_check tx last_header stakes rest
            (fun c => if c = coin_id then none else coins c)
            good_scripts'
            (insertAdd in_coins coin_data.coin_data.denom coin_data.coin_data.value)
            log'

/-- The balance loop of `apply_tx_inputs` (applytx.rs lines 235-251): for
every denomination of the transaction's total outputs, skipping `Erg` for a
`DoscMint` transaction, reject with `UnbalancedInOut` unless the
denomination is the "new token" marker or the output value equals the
accumulated input value, an absent input denomination being read as
`u128::MAX` (`in_coins.get(currency).unwrap_or(&u128::MAX)`). -/
def balance_loop (kind : TxKind) (in_coins : List (Denom × Nat)) :
    List (Denom × Nat) → Except StateError Unit
  | [] => .ok ()
  | (currency, value) :: rest =>
    if kind = .doscMint ∧ currency = .erg then balance_loop kind in_coins rest
    else
      let in_value := (lookupD in_coins currency).getD (U128LIM - 1)
      if currency ≠ .newCoin ∧ value ≠ in_value then .error .unbalancedInOut
      else balance_loop kind in_coins rest

/-- The balance check of `apply_tx_inputs` (applytx.rs lines 233-252): run
the balance loop over the transaction's total outputs unless the
transaction is a faucet. -/
def balance_check (kind : TxKind) (in_coins : List (Denom × Nat))
    (out_coins : List (Denom × Nat)) : Except StateError Unit :=
  if kind ≠ .faucet then balance_loop kind in_coins out_coins else .ok ()

/-- `StateHandle::apply_tx_inputs`, returning on success the accumulated
input-value map and the covenant-evaluation log. -/
def apply_tx_inputs_log (cov_hash : List Nat → Nat)
    (cov_check : List Nat → Transaction → CovenantEnv → Bool)
    (h : SHandle) (last_header : Nat) (tx : Transaction) :
    Except StateError (List (Denom × Nat) × List Nat) :=
  match apply_tx_inputs_go cov_hash cov_check tx last_header h.stakes
      tx.inputs.enum h.coins [] [] [] with
  | .error e => .error e
  | .ok (in_coins, log) =>
    match balance_check tx.kind in_coins (total_outputs tx) with
    | .error e => .error e
    | .ok _ => .ok (in_coins, log)

/-- `StateHandle::apply_tx_inputs` with the source's `Result<(), StateError>`
signature. -/
def apply_tx_inputs (cov_hash : List Nat → Nat)
    (cov_check : List Nat → Transaction → CovenantEnv → Bool)
    (h : SHandle) (last_header : Nat) (tx : Transaction) :
    Except StateError Unit :=
  match apply_tx_inputs_log cov_hash cov_check h last_header tx with
  | .error e => .error e
  | .ok _ => .ok ()

/-- themelio_structs `Transaction::hash_nosigs` strips the signatures before
hashing; the hash itself is a parameter (`H`), applied to the
signature-stripped record, so equal signature-stripped content yields equal
hashes by construction. -/
def strip_sigs (tx : Transaction) : Transaction := { tx with sigs := [] }

/-- `Transaction::hash_nosigs`, parameterized by the underlying hash `H`. -/
def hash_nosigs (H : Transaction → Nat) (tx : Transaction) : Nat := H (strip_sigs tx)

/-- `faucet_dedup_pseudocoin` (applytx.rs lines 35-40): the deduplication
pseudo-coin of a faucet transaction, a keyed hash of its signature-stripped
hash at output index 0. `hk_fdp` models `tmelcrypt::hash_keyed` with the
fixed key `b"fdp"` already applied. -/
def faucet_dedup_pseudocoin (hk_fdp : Nat → Nat) (txhash : Nat) : CoinID :=
  ⟨hk_fdp txhash, 0⟩

/-- The zero-value marker coin the admission pass registers under a faucet's
pseudo-coin id (applytx.rs lines 74-82): denomination `Mel`, value 0, empty
additional data, the default (zero) covenant hash, height 0. -/
def faucet_marker : CoinDataHeight := ⟨⟨0, .mel, [], 0⟩, 0⟩

/-- The fee/tip scalars of the handle (`fee_pool_cache` / `tips_cache`). -/
structure FeeState where
  fee_pool : Nat
  tips : Nat
deriving DecidableEq

/-- u128 `saturating_add`. -/
def sat_add (a b : Nat) : Nat := min (a + b) (U128LIM - 1)

/-- `StateHandle::apply_tx_fees` (applytx.rs lines 256-270). The minimum fee
`tx.base_fee(fee_multiplier, 0, weight)` is computed by themelio_structs and
melvm's weight function, both external, so it enters as the parameter
`base_fee`. Rejects with `InsufficientFees` when the declared fee is below
the minimum; otherwise saturating-adds the minimum into the fee pool and the
excess into the tips. -/
def apply_tx_fees (base_fee : Nat → Transaction → Nat) (fee_multiplier : Nat)
    (st : FeeState) (tx : Transaction) : Except StateError FeeState :=
  let min_fee := base_fee fee_multiplier tx
  if tx.fee < min_fee then .error (.insufficientFees min_fee)
  else
    let tips := tx.fee - min_fee
    .ok ⟨sat_add st.fee_pool min_fee, sat_add st.tips tips⟩

/-- The pieces of the handle the sequential admission pass reads and writes:
the coin view, the transactions-by-hash cache, and the fee scalars. -/
structure AdmissionState where
  coins : CoinID → Option CoinDataHeight
  transactions : List (Nat × Transaction)
  fees : FeeState

/-- One iteration of the sequential admission loop of
`StateHandle::apply_tx_batch` (applytx.rs lines 66-93): faucet
deduplication against the coin view (`DuplicateTx`, else registering the
zero-value marker), the structural well-formedness check (`MalformedTx`;
`Transaction::is_well_formed` is external, parameter `is_wf`), rejection of
faucets on mainnet (`UnbalancedInOut`), recording the transaction by its
signature-stripped hash, and fee accrual. -/
def admission_step (H : Transaction → Nat) (hk_fdp : Nat → Nat)
    (is_wf : Transaction → Bool) (base_fee : Nat → Transaction → Nat)
    (network : NetID) (fee_multiplier : Nat)
    (st : AdmissionState) (tx : Transaction) : Except StateError AdmissionState :=
  let step1 : Except StateError AdmissionState :=
    if tx.kind = .faucet then
      let pseudocoin := faucet_dedup_pseudocoin hk_fdp (hash_nosigs H tx)
      if (st.coins pseudocoin).isSome then .error .duplicateTx
      else .ok { st with
        coins := fun c => if c = pseudocoin then some faucet_marker else st.coins c }
    else .ok st
  match step1 with
  | .error e => .error e
  | .ok st1 =>
    if ¬ is_wf tx then .error .malformedTx
    else if tx.kind = .faucet ∧ network = .mainnet then .error .unbalancedInOut
    else
      let st2 := { st1 with
        transactions := (hash_nosigs H tx, tx) :: st1.transactions }
      match apply_tx_fees base_fee fee_multiplier st2.fees tx with
      | .error e => .error e
      | .ok fees' => .ok { st2 with fees := fees' }

/-- The sequential admission pass: the admission step folded over the batch
in order, the first error aborting. -/
def admission_pass (H : Transaction → Nat) (hk_fdp : Nat → Nat)
    (is_wf : Transaction → Bool) (base_fee : Nat → Transaction → Nat)
    (network : NetID) (fee_multiplier : Nat) :
    List Transaction → AdmissionState → Except StateError AdmissionState
  | [], st => .ok st
  | tx :: rest, st =>
    match admission_step H hk_fdp is_wf base_fee network fee_multiplier st tx with
    | .error e => .error e
    | .ok st' => admission_pass H hk_fdp is_wf base_fee network fee_multiplier rest st'

/-- Modelled from the spec: stdcode deserialization of a `StakeDoc` from the
transaction payload ("deserializes a StakeDoc from the transaction payload;
rejects malformed encodings"; stdcode is not under src/). The model reads
the document's four fields from the first four payload bytes and rejects
shorter payloads — in particular the empty payload — as malformed. -/
def decode_stake_model : List Nat → Option StakeDoc
  | pk :: es :: epe :: sy :: _ => some ⟨pk, es, epe, sy⟩
  | _ => none

/-- `StateHandle::apply_tx_special_stake` (applytx.rs lines 366-398),
parameterized by the payload decoder. Returns `some doc` when the StakeDoc
was registered (`set_stake`), `none` when the transaction was accepted
without registration. Deserialization failure and a missing first output
are `MalformedTx`; on mainnet/testnet below height 500000 everything else
is accepted unregistered; above, a first output not denominated in `Sym` is
`MalformedTx`, a consistent document (start epoch strictly after the
current, end strictly after start, locked amount equal to the first
output's value) is registered, and anything else is silently accepted
without registration. -/
def apply_tx_special_stake (decode_stake : List Nat → Option StakeDoc)
    (network : NetID) (height : Nat) (tx : Transaction) :
    Except StateError (Option StakeDoc) :=
  match decode_stake tx.data with
  | none => .error .malformedTx
  | some stake_doc =>
    let curr_epoch := height / STAKE_EPOCH
    match tx.outputs.head? with
    | none => .error .malformedTx
    | some first_coin =>
      if (network = .mainnet ∨ network = .testnet) ∧ height < 500000 then
        .ok none
      else if first_coin.denom ≠ .sym then .error .malformedTx
      else if stake_doc.e_start > curr_epoch
          ∧ stake_doc.e_post_end > stake_doc.e_start
          ∧ stake_doc.syms_staked = first_coin.value then
        .ok (some stake_doc)
      else .ok none

/-- A historical block header as `apply_tx_special_doscmint` consults it:
its hash (input of the puzzle seed) and its recorded `dosc_speed`. -/
structure BHeader where
  hashv : Nat
  dosc_speed : Nat

/-- Modelled from the spec: stdcode deserialization of the claimed
`(difficulty, proof)` pair from a DoscMint payload ("parses a claimed
(difficulty, proof) pair from the transaction payload; rejects malformed
encodings"; stdcode is not under src/). The model reads a `u32` difficulty
from the first byte and takes the rest as the proof bytes, rejecting the
empty payload and out-of-range difficulties. -/
def decode_dosc_model : List Nat → Option (Nat × List Nat)
  | d :: rest => if d < 2 ^ 32 then some (d, rest) else none
  | [] => none

/-- `StateHandle::apply_tx_special_doscmint` (applytx.rs lines 304-365).
External collaborators are parameters: the payload decoder, melpow's
`Proof::from_bytes` and the two proof verifiers (legacy and tip-910, taking
the proof, the puzzle seed and the difficulty), the keyed hash producing the
puzzle seed from the parent header's hash and the serialized first input,
and melmint's `calculate_reward` and `dosc_to_erg`. The result is `none`
where the source panics rather than returning an error: a missing first
input (`.get(0).unwrap()`), a missing historical header (`.unwrap()`),
proof bytes `Proof::from_bytes` rejects (`.unwrap()`), the u128 overflow of
`2u128.pow(difficulty)` for a difficulty of 128 or more, and the division
by zero in the speed computation when the coin's age is zero. -/
def apply_tx_special_doscmint (decode_dosc : List Nat → Option (Nat × List Nat))
    (from_bytes : List Nat → Option (List Nat))
    (verify_legacy verify_tip910 : List Nat → Nat → Nat → Bool)
    (hk_chi : Nat → CoinID → Nat)
    (calculate_reward : Nat → Nat → Nat → Bool → Nat)
    (dosc_to_erg : Nat → Nat → Nat)
    (h : SHandle) (history : Nat → Option BHeader) (tx : Transaction) :
    Option (Except StateError Unit) :=
  match tx.inputs.head? with
  | none => none
  | some coin_id =>
    match h.coins coin_id with
    | none => some (.error .malformedTx)
    | some coin_data =>
      if h.height - coin_data.height < 100 ∧ h.network = .mainnet then
        some (.error .invalidMelPoW)
      else
        match history coin_data.height with
        | none => none
        | some hdr =>
          let chi := hk_chi hdr.hashv coin_id
          match decode_dosc tx.data with
          | none => some (.error .malformedTx)
          | some (difficulty, proof_bytes) =>
            match from_bytes proof_bytes with
            | none => none
            | some proof =>
              let verdict : Option Bool :=
                if verify_legacy proof chi difficulty then some false
                else if verify_tip910 proof chi difficulty then some true
                else none
              match verdict with
              | none => some (.error .invalidMelPoW)
              | some is_tip910 =>
                if 128 ≤ difficulty then none
                else
                  let age := h.height - coin_data.height
                  if age = 0 then none
                  else
                    let my_speed := 2 ^ difficulty / age
                    match history (h.height - 1) with
                    | none => none
                    | some prev =>
                      let reward_real :=
                        calculate_reward my_speed prev.dosc_speed difficulty is_tip910
                      let reward_nom := dosc_to_erg h.height reward_real
                      let total_dosc_output :=
                        (lookupD (total_outputs tx) .erg).getD 0
                      if reward_nom < total_dosc_output then
                        some (.error .invalidMelPoW)
                      else some (.ok ())

/-- The u256 modulus: the covenant VM's primary value kind is a 256-bit
unsigned integer. -/
def U256LIM : Nat := 2 ^ 256

/-- Modelled from the spec: the covenant VM's value type (`melvm::Value`,
not under src/) — "a fixed-width (256-bit) unsigned integer value type,
with container values (e.g., lists) as a secondary kind". Integers are
naturals kept below `2 ^ 256`; the secondary kind is a byte string. -/
inductive Value where
  | int (n : Nat)
  | bytes (bs : List Nat)
deriving DecidableEq

/-- Modelled from the spec: the opcodes of the covenant VM exercised by
`src/testing/opcodes.rs` (`melvm::opcode::OpCode`, not under src/):
immediate push, the wrapping arithmetic, the full-width bitwise operations,
the comparisons and `Noop`. -/
inductive OpCode where
  | pushI (imm : Nat)
  | add
  | sub
  | mul
  | div
  | rem
  | and
  | or
  | xor
  | not
  | eql
  | lt
  | gt
  | noop
deriving DecidableEq

/-- Modelled from the spec: the VM's execution state (`melvm::Executor`,
not under src/) — "an instruction pointer, an operand stack". The table of
bound input values is not needed for the immediate-operand programs of the
claims. -/
structure Executor where
  pc : Nat
  stack : List Value

/-- Apply a binary arithmetic operation to the two topmost stack integers
(`x` the top of the stack, `y` beneath it, matching the operand order the
tests in `src/testing/opcodes.rs` pin down: pushing `a` then `b` and
subtracting yields `b - a`); fault (`none`) on stack underflow, on a
non-integer operand, or when the operation itself faults. -/
def binop (f : Nat → Nat → Option Nat) (ex : Executor) : Option Executor :=
  match ex.stack with
  | .int x :: .int y :: rest => (f x y).map fun r => ⟨ex.pc + 1, .int r :: rest⟩
  | _ => none

/-- Apply a unary arithmetic operation to the topmost stack integer. -/
def unop (f : Nat → Option Nat) (ex : Executor) : Option Executor :=
  match ex.stack with
  | .int x :: rest => (f x).map fun r => ⟨ex.pc + 1, .int r :: rest⟩
  | _ => none

/-- Modelled from the spec: `Executor::step` for the modelled opcodes
(melvm, not under src/) — "`step()` advances by exactly one instruction,
mutating the stack and pointer; it yields a non-success result (aborting
the whole evaluation) on stack underflow, type mismatch, or an explicitly
failing instruction. Arithmetic opcodes operate with 256-bit unsigned
wraparound; division and remainder by zero fault the evaluation rather
than returning a value. Bitwise opcodes operate bit-wise over the full
width. Comparison opcodes push 1 for true and 0 for false." -/
def step (ops : List OpCode) (ex : Executor) : Option Executor :=
  match ops[ex.pc]? with
  | none => none
  | some op =>
    match op with
    | .pushI n => some ⟨ex.pc + 1, .int (n % U256LIM) :: ex.stack⟩
    | .add => binop (fun x y => some ((x + y) % U256LIM)) ex
    | .sub => binop (fun x y => some ((x + (U256LIM - y % U256LIM)) % U256LIM)) ex
    | .mul => binop (fun x y => some ((x * y) % U256LIM)) ex
    | .div => binop (fun x y => if y = 0 then none else some (x / y)) ex
    | .rem => binop (fun x y => if y = 0 then none else some (x % y)) ex
    | .and => binop (fun x y => some (Nat.land x y)) ex
    | .or => binop (fun x y => some (Nat.lor x y)) ex
    | .xor => binop (fun x y => some (Nat.xor x y)) ex
    | .not => unop (fun x => some ((U256LIM - 1) - x % U256LIM)) ex
    | .eql => binop (fun x y => some (if x = y then 1 else 0)) ex
    | .lt => binop (fun x y => some (if x < y then 1 else 0)) ex
    | .gt => binop (fun x y => some (if y < x then 1 else 0)) ex
    | .noop => some ⟨ex.pc + 1, ex.stack⟩

/-- Step the VM for at most `fuel` instructions or until the instruction
pointer reaches the end of the program, faulting (`none`) when a step
faults. The modelled opcodes each advance the pointer by one, so a fuel of
the program's length always suffices. -/
def run_vm (ops : List OpCode) : Nat → Executor → Option Executor
  | 0, ex => some ex
  | fuel + 1, ex =>
    if ex.pc < ops.length then
      match step ops ex with
      | none => none
      | some ex' => run_vm ops fuel ex'
    else some ex

/-- `run_ops` of `src/testing/opcodes.rs`: run the program from an empty
stack until the instruction pointer reaches the end, then pop the result;
`none` on a fault or an empty final stack. -/
def run_ops (ops : List OpCode) : Option Value :=
  match run_vm ops ops.length ⟨0, []⟩ with
  | none => none
  | some ex => if ex.pc < ops.length then none else ex.stack.head?

/-! General lemmas about the embedded applier. -/

/-- A successful `script_gate` either skips (the hash was already good) or
records the hash: in the latter case the hash was not yet good. -/
theorem script_gate_ok (cov_hash : List Nat → Nat)
    (cov_check : List Nat → Transaction → CovenantEnv → Bool)
    (tx : Transaction) (last_header spend_idx : Nat) (coin_id : CoinID)
    (coin_data : CoinDataHeight) (good log good' log' : List Nat)
    (hok : script_gate cov_hash cov_check tx last_header spend_idx coin_id
      coin_data good log = .ok (good', log')) :
    (coin_data.coin_data.covhash ∈ good ∧ good' = good ∧ log' = log) ∨
    (coin_data.coin_data.covhash ∉ good ∧
      good' = coin_data.coin_data.covhash :: good ∧
      log' = coin_data.coin_data.covhash :: log) := by
  unfold script_gate at hok
  split at hok
  · next hg =>
    cases hok
    exact Or.inl ⟨by simpa using hg, rfl, rfl⟩
  · next hg =>
    split at hok
    · exact absurd hok (by simp)
    · split at hok
      · cases hok
        exact Or.inr ⟨by simpa using hg, rfl, rfl⟩
      · exact absurd hok (by simp)

/-- `script_gate` never fails with `CoinLocked`, `NonexistentCoin` or
`UnbalancedInOut`: its errors are `NonexistentScript` and `ViolatesScript`. -/
theorem script_gate_error (cov_hash : List Nat → Nat)
    (cov_check : List Nat → Transaction → CovenantEnv → Bool)
    (tx : Transaction) (last_header spend_idx : Nat) (coin_id : CoinID)
    (coin_data : CoinDataHeight) (good log : List Nat) (e : StateError)
    (herr : script_gate cov_hash cov_check tx last_header spend_idx coin_id
      coin_data good log = .error e) :
    e = .nonexistentScript coin_data.coin_data.covhash ∨
    e = .violatesScript coin_data.coin_data.covhash := by
  unfold script_gate at herr
  split at herr
  · exact absurd herr (by simp)
  · split at herr
    · cases herr
      exact Or.inl rfl
    · split at herr
      · exact absurd herr (by simp)
      · cases herr
        exact Or.inr rfl

/-- The balance loop fails with `UnbalancedInOut` exactly when some output
denomination entry, not skipped as the minted `Erg` of a `DoscMint` and not
the "new token" marker, differs from the accumulated input value, an absent
denomination read as `u128::MAX`. -/
theorem balance_loop_error_iff (kind : TxKind) (ic : List (Denom × Nat)) :
    ∀ outs : List (Denom × Nat),
    balance_loop kind ic outs = .error .unbalancedInOut ↔
      ∃ p ∈ outs, ¬(kind = .doscMint ∧ p.1 = .erg) ∧ p.1 ≠ .newCoin ∧
        p.2 ≠ (lookupD ic p.1).getD (U128LIM - 1)
  | [] => by simp [balance_loop]
  | (c, v) :: rest => by
    simp only [balance_loop]
    split_ifs with hd hu
    · rw [balance_loop_error_iff kind ic rest]
      simp only [List.mem_cons]
      constructor
      · rintro ⟨p, hp, h⟩
        exact ⟨p, Or.inr hp, h⟩
      · rintro ⟨p, hp | hp, h⟩
        · subst hp
          exact absurd hd h.1
        · exact ⟨p, hp, h⟩
    · simp only [List.mem_cons]
      constructor
      · intro _
        exact ⟨(c, v), Or.inl rfl, hd, hu.1, hu.2⟩
      · intro _
        trivial
    · rw [balance_loop_error_iff kind ic rest]
      simp only [List.mem_cons]
      constructor
      · rintro ⟨p, hp, h⟩
        exact ⟨p, Or.inr hp, h⟩
      · rintro ⟨p, hp | hp, h⟩
        · subst hp
          exact absurd ⟨h.2.1, h.2.2⟩ hu
        · exact ⟨p, hp, h⟩

/-- The balance loop either succeeds or fails with `UnbalancedInOut`. -/
theorem balance_loop_ok_or (kind : TxKind) (ic : List (Denom × Nat)) :
    ∀ outs : List (Denom × Nat),
    balance_loop kind ic outs = .ok () ∨
      balance_loop kind ic outs = .error .unbalancedInOut
  | [] => Or.inl rfl
  | (c, v) :: rest => by
    simp only [balance_loop]
    split_ifs with hd hu
    · exact balance_loop_ok_or kind ic rest
    · exact Or.inr rfl
    · exact balance_loop_ok_or kind ic rest

/-- A successful balance loop means every checked output entry equals the
accumulated input value (absent read as `u128::MAX`). -/
theorem balance_loop_ok_mem (kind : TxKind) (ic outs : List (Denom × Nat))
    (hok : balance_loop kind ic outs = .ok ()) :
    ∀ p ∈ outs, p.1 ≠ .newCoin → ¬(kind = .doscMint ∧ p.1 = .erg) →
      p.2 = (lookupD ic p.1).getD (U128LIM - 1) := by
  intro p hp hnew hskip
  by_contra hne
  have : balance_loop kind ic outs = .error .unbalancedInOut :=
    (balance_loop_error_iff kind ic outs).mpr ⟨p, hp, hskip, hnew, hne⟩
  rw [hok] at this
  exact absurd this (by simp)

/-- The evaluation log of a successful input loop has no duplicates: a
covenant hash is evaluated at most once per transaction. Stated with the
invariant that every already-logged hash is already good. -/
theorem apply_tx_inputs_go_log_nodup (cov_hash : List Nat → Nat)
    (cov_check : List Nat → Transaction → CovenantEnv → Bool)
    (tx : Transaction) (last_header : Nat) (stakes : Nat → Option StakeDoc) :
    ∀ (inputs : List (Nat × CoinID)) (coins : CoinID → Option CoinDataHeight)
      (good : List Nat) (ic : List (Denom × Nat)) (log : List Nat),
      (∀ c ∈ log, c ∈ good) → log.Nodup →
      ∀ res, apply_tx_inputs_go cov_hash cov_check tx last_header stakes
        inputs coins good ic log = .ok res → res.2.Nodup
  | [], coins, good, ic, log => by
    intro hsub hnd res hok
    simp only [apply_tx_inputs_go] at hok
    cases hok
    exact hnd
  | (spend_idx, coin_id) :: rest, coins, good, ic, log => by
    intro hsub hnd res hok
    simp only [apply_tx_inputs_go] at hok
    split at hok
    · exact absurd hok (by simp)
    · split at hok
      · exact absurd hok (by simp)
      · next coin_data heq =>
        split at hok
        · exact absurd hok (by simp)
        · next good' log' hg =>
          rcases script_gate_ok cov_hash cov_check tx last_header spend_idx
              coin_id coin_data good log good' log' hg with
            ⟨_, hgeq, hleq⟩ | ⟨hnotin, hgeq, hleq⟩
          · rw [hgeq, hleq] at hok
            exact apply_tx_inputs_go_log_nodup cov_hash cov_check tx last_header
              stakes rest _ good _ log hsub hnd res hok
          · rw [hgeq, hleq] at hok
            refine apply_tx_inputs_go_log_nodup cov_hash cov_check tx last_header
              stakes rest _ _ _ _ ?_ ?_ res hok
            · intro c hcmem
              rcases List.mem_cons.1 hcmem with hceq | hcmem'
              · subst hceq
                exact List.mem_cons_self _ _
              · exact List.mem_cons_of_mem _ (hsub c hcmem')
            · refine List.nodup_cons.2 ⟨?_, hnd⟩
              intro hmem
              exact hnotin (hsub _ hmem)

/-- On a successful input loop, `apply_tx_inputs_log` is the balance check
over the accumulated input values. -/
theorem apply_tx_inputs_log_eq (cov_hash : List Nat → Nat)
    (cov_check : List Nat → Transaction → CovenantEnv → Bool)
    (h : SHandle) (last_header : Nat) (tx : Transaction)
    (ic : List (Denom × Nat)) (log : List Nat)
    (hgo : apply_tx_inputs_go cov_hash cov_check tx last_header h.stakes
      tx.inputs.enum h.coins [] [] [] = .ok (ic, log)) :
    apply_tx_inputs_log cov_hash cov_check h last_header tx =
      match balance_check tx.kind ic (total_outputs tx) with
      | .error e => .error e
      | .ok _ => .ok (ic, log) := by
  unfold apply_tx_inputs_log
  rw [hgo]

/-- The balance check either succeeds or fails with `UnbalancedInOut`. -/
theorem balance_check_ok_or (kind : TxKind) (ic outs : List (Denom × Nat)) :
    balance_check kind ic outs = .ok () ∨
      balance_check kind ic outs = .error .unbalancedInOut := by
  unfold balance_check
  split_ifs
  · exact balance_loop_ok_or kind ic outs
  · exact Or.inl rfl

/-! Definitions written from the specification's words, for comparison with
the embedded source. -/

/-- The per-denomination balance comparison as the specification phrases it:
identical to `balance_loop` except that an input denomination absent from
the accumulated map is "treated as value zero for comparison purposes". -/
def balance_loop_spec_zero (kind : TxKind) (in_coins : List (Denom × Nat)) :
    List (Denom × Nat) → Except StateError Unit
  | [] => .ok ()
  | (currency, value) :: rest =>
    if kind = .doscMint ∧ currency = .erg then
      balance_loop_spec_zero kind in_coins rest
    else
      let in_value := (lookupD in_coins currency).getD 0
      if currency ≠ .newCoin ∧ value ≠ in_value then .error .unbalancedInOut
      else balance_loop_spec_zero kind in_coins rest

/-- A stake is *active*, in the specification's words, when it is within its
validity epoch range: the current epoch lies in `[e_start, e_post_end)`. -/
def stake_active (epoch : Nat) (sd : StakeDoc) : Prop :=
  sd.e_start ≤ epoch ∧ epoch < sd.e_post_end

/-! Concrete fixtures used by the claim theorems. -/

/-- A handle with no coins and no stakes. -/
def h_empty : SHandle := ⟨.custom02, 0, fun _ => none, fun _ => none⟩

/-- A normal transaction with no inputs and a single zero-value `Mel`
output. -/
def tx_zero_out : Transaction := ⟨.normal, [], [⟨0, .mel, [], 3⟩], 0, [], [], []⟩

/-- A faucet transaction with no inputs and outputs in two denominations. -/
def tx_faucet_two : Transaction :=
  ⟨.faucet, [], [⟨5, .mel, [], 3⟩, ⟨7, .sym, [], 3⟩], 0, [], [], []⟩

/-- A balanced normal transaction: one input coin of 5 `Mel` guarded by the
covenant hashing to 7, one output of 5 `Mel`. -/
def tx_bal : Transaction := ⟨.normal, [⟨10, 0⟩], [⟨5, .mel, [], 7⟩], 0, [[42]], [], []⟩

/-- The handle holding `tx_bal`'s input coin. -/
def h_bal : SHandle :=
  ⟨.custom02, 0,
    (fun c => if c = ⟨10, 0⟩ then some ⟨⟨5, .mel, [], 7⟩, 0⟩ else none),
    (fun _ => none)⟩

/-- A stake document whose validity range `[5, 6)` does not contain epoch 0. -/
def sd_out_of_range : StakeDoc := ⟨0, 5, 6, 10⟩

/-- A handle at height 0 holding one coin originating from transaction hash
1, which also has the out-of-range stake registered. -/
def h_locked : SHandle :=
  ⟨.custom02, 0,
    (fun c => if c = ⟨1, 0⟩ then some ⟨⟨5, .mel, [], 7⟩, 0⟩ else none),
    (fun t => if t = 1 then some sd_out_of_range else none)⟩

/-- A normal transaction spending the coin guarded by the out-of-range
stake. -/
def tx_spend_locked : Transaction :=
  ⟨.normal, [⟨1, 0⟩], [⟨5, .mel, [], 9⟩], 0, [[42]], [], []⟩

/-- A normal transaction spending two coins that share the destination
covenant hash 7, with a balanced `Mel` output. -/
def tx_two_shared : Transaction :=
  ⟨.normal, [⟨10, 0⟩, ⟨11, 0⟩], [⟨3, .mel, [], 9⟩], 0, [[42]], [], []⟩

/-- `tx_two_shared` with the covenant list emptied, so no supplied script
hashes to the coins' destination. -/
def tx_two_shared_noscript : Transaction :=
  ⟨.normal, [⟨10, 0⟩, ⟨11, 0⟩], [⟨3, .mel, [], 9⟩], 0, [], [], []⟩

/-- The handle holding `tx_two_shared`'s two input coins (1 and 2 `Mel`,
both with destination hash 7). -/
def h_two_shared : SHandle :=
  ⟨.custom02, 0,
    (fun c => if c = ⟨10, 0⟩ then some ⟨⟨1, .mel, [], 7⟩, 0⟩
      else if c = ⟨11, 0⟩ then some ⟨⟨2, .mel, [], 7⟩, 0⟩ else none),
    (fun _ => none)⟩

/-- A stake transaction with a decodable payload whose first output is
denominated in `Mel`, not the staking unit. -/
def tx_stake_mel : Transaction :=
  ⟨.stake, [], [⟨10, .mel, [], 7⟩], 0, [], [2, 3, 4, 10], []⟩

/-- A stake transaction with an empty (hence undecodable) payload and a
non-`Sym` first output. -/
def tx_stake_nodata : Transaction :=
  ⟨.stake, [], [⟨10, .mel, [], 7⟩], 0, [], [], []⟩

/-- A stake transaction with a decodable payload, a non-`Sym` first output,
and epochs 9 and 12. -/
def tx_stake_mel9 : Transaction :=
  ⟨.stake, [], [⟨10, .mel, [], 7⟩], 0, [], [2, 9, 12, 10], []⟩

/-- A stake transaction whose first output is 10 `Sym` but whose document
starts at epoch 0, failing the epoch-ordering check above the legacy
height. -/
def tx_stake_badepoch : Transaction :=
  ⟨.stake, [], [⟨10, .sym, [], 7⟩], 0, [], [2, 0, 0, 10], []⟩

/-- A transaction declaring a fee of 5. -/
def tx_fee5 : Transaction := ⟨.normal, [], [], 5, [], [], []⟩

/-- Two faucet transactions identical except for their signatures. -/
def tx_faucet_sig1 : Transaction :=
  ⟨.faucet, [], [⟨5, .mel, [], 3⟩], 5, [], [], [[1]]⟩

/-- The same faucet content signed differently. -/
def tx_faucet_sig2 : Transaction :=
  ⟨.faucet, [], [⟨5, .mel, [], 3⟩], 5, [], [], [[2]]⟩

/-- An admission state with no coins, no recorded transactions and empty
fee scalars. -/
def st_adm0 : AdmissionState := ⟨fun _ => none, [], ⟨0, 0⟩⟩

/-- A handle whose coin at (5, 0) was created at height 900, i.e. 100
blocks before the handle's height 1000, on a custom network. -/
def h_dosc_age100 : SHandle :=
  ⟨.custom02, 1000,
    (fun c => if c = ⟨5, 0⟩ then some ⟨⟨1, .mel, [], 7⟩, 900⟩ else none),
    fun _ => none⟩

/-- A DoscMint transaction whose payload decodes to difficulty 128. -/
def tx_dosc_diff128 : Transaction := ⟨.doscMint, [⟨5, 0⟩], [], 0, [], [128], []⟩

/-- A handle whose coin at (5, 0) was created at the handle's own height
1000 (coin age zero), on a custom network. -/
def h_dosc_age0 : SHandle :=
  ⟨.custom02, 1000,
    (fun c => if c = ⟨5, 0⟩ then some ⟨⟨1, .mel, [], 7⟩, 1000⟩ else none),
    fun _ => none⟩

/-- A DoscMint transaction whose payload decodes to difficulty 1. -/
def tx_dosc_diff1 : Transaction := ⟨.doscMint, [⟨5, 0⟩], [], 0, [], [1], []⟩

/-! The claim theorems. -/

/-- C1, counterexample. The claim states that an input denomination absent
from the accumulated input map is compared as value zero. On a normal
transaction with no inputs and a single zero-value `Mel` output the
accumulated map is empty, so under the claim's comparison there is no
mismatch (`balance_loop_spec_zero` accepts), yet the code rejects with
`UnbalancedInOut`: the source compares the absent denomination against
`u128::MAX`, not zero. -/
theorem c1_balance_counterexample :
    apply_tx_inputs_go (fun _ => 0) (fun _ _ _ => true) tx_zero_out 0
      h_empty.stakes tx_zero_out.inputs.enum h_empty.coins [] [] [] = .ok ([], []) ∧
    apply_tx_inputs (fun _ => 0) (fun _ _ _ => true) h_empty 0 tx_zero_out =
      .error .unbalancedInOut ∧
    balance_loop_spec_zero tx_zero_out.kind [] (total_outputs tx_zero_out) = .ok () :=
  ⟨rfl, rfl, rfl⟩

/-- C1, amended: after a successful input loop, a non-faucet transaction is
rejected with `UnbalancedInOut` exactly when some total-output entry —
skipping the minted `Erg` of a `DoscMint` and the "new token" marker —
differs from the accumulated input value for its denomination, an absent
input denomination being compared as `u128::MAX` (not zero, as the claim
stated). -/
theorem c1_balance_amended (cov_hash : List Nat → Nat)
    (cov_check : List Nat → Transaction → CovenantEnv → Bool)
    (h : SHandle) (last_header : Nat) (tx : Transaction)
    (ic : List (Denom × Nat)) (log : List Nat)
    (hgo : apply_tx_inputs_go cov_hash cov_check tx last_header h.stakes
      tx.inputs.enum h.coins [] [] [] = .ok (ic, log)) :
    apply_tx_inputs cov_hash cov_check h last_header tx = .error .unbalancedInOut ↔
      (tx.kind ≠ .faucet ∧ ∃ p ∈ total_outputs tx,
        ¬(tx.kind = .doscMint ∧ p.1 = .erg) ∧ p.1 ≠ .newCoin ∧
        p.2 ≠ (lookupD ic p.1).getD (U128LIM - 1)) := by
  unfold apply_tx_inputs
  rw [apply_tx_inputs_log_eq cov_hash cov_check h last_header tx ic log hgo]
  unfold balance_check
  by_cases hk : tx.kind ≠ .faucet
  · rw [if_pos hk]
    rcases balance_loop_ok_or tx.kind ic (total_outputs tx) with hbl | hbl
    · rw [hbl]
      constructor
      · intro hx
        simp at hx
      · rintro ⟨-, hex⟩
        have := (balance_loop_error_iff tx.kind ic (total_outputs tx)).mpr hex
        rw [hbl] at this
        simp at this
    · rw [hbl]
      constructor
      · intro _
        exact ⟨hk, (balance_loop_error_iff tx.kind ic (total_outputs tx)).mp hbl⟩
      · intro _
        rfl
  · rw [if_neg hk]
    constructor
    · intro hx
      simp at hx
    · rintro ⟨hkk, -⟩
      exact absurd hkk hk

/-- C1, witness for the amended theorem at the balanced fixture. -/
theorem c1_balance_amended_witness :
    apply_tx_inputs (fun _ => 7) (fun _ _ _ => true) h_bal 0 tx_bal =
        .error .unbalancedInOut ↔
      (tx_bal.kind ≠ .faucet ∧ ∃ p ∈ total_outputs tx_bal,
        ¬(tx_bal.kind = .doscMint ∧ p.1 = .erg) ∧ p.1 ≠ .newCoin ∧
        p.2 ≠ (lookupD [(Denom.mel, 5)] p.1).getD (U128LIM - 1)) :=
  c1_balance_amended (fun _ => 7) (fun _ _ _ => true) h_bal 0 tx_bal
    [(Denom.mel, 5)] [7] rfl

/-- C4, counterexample. The claim states that faucet transactions, being a
minting kind, are exempt from the balance requirement only for the
denomination they mint. The code skips the balance check for faucets
entirely: this faucet has no inputs yet outputs 5 `Mel` and 7 `Sym` — two
denominations, both unbacked by inputs — and input application accepts it. -/
theorem c4_conservation_counterexample :
    apply_tx_inputs (fun _ => 0) (fun _ _ _ => true) h_empty 0 tx_faucet_two = .ok () ∧
    tx_faucet_two.kind = .faucet ∧ tx_faucet_two.inputs = [] ∧
    total_outputs tx_faucet_two = [(.mel, 5), (.sym, 7)] :=
  ⟨rfl, rfl, rfl, rfl⟩

/-- C4, amended: for a non-faucet transaction accepted by input
application, every denomination appearing in its total outputs other than
the "new token" marker (and other than `Erg` for a `DoscMint`) equals the
accumulated input value for that denomination, an absent denomination
compared as `u128::MAX`; denominations appearing only in inputs are not
checked, and faucet transactions are exempt for every denomination. -/
theorem c4_conservation_amended (cov_hash : List Nat → Nat)
    (cov_check : List Nat → Transaction → CovenantEnv → Bool)
    (h : SHandle) (last_header : Nat) (tx : Transaction)
    (ic : List (Denom × Nat)) (log : List Nat)
    (hk : tx.kind ≠ .faucet)
    (hgo : apply_tx_inputs_go cov_hash cov_check tx last_header h.stakes
      tx.inputs.enum h.coins [] [] [] = .ok (ic, log))
    (hok : apply_tx_inputs cov_hash cov_check h last_header tx = .ok ()) :
    ∀ p ∈ total_outputs tx, p.1 ≠ .newCoin → ¬(tx.kind = .doscMint ∧ p.1 = .erg) →
      p.2 = (lookupD ic p.1).getD (U128LIM - 1) := by
  have hbl : balance_loop tx.kind ic (total_outputs tx) = .ok () := by
    rcases balance_loop_ok_or tx.kind ic (total_outputs tx) with hbl | hbl
    · exact hbl
    · exfalso
      unfold apply_tx_inputs at hok
      rw [apply_tx_inputs_log_eq cov_hash cov_check h last_header tx ic log hgo] at hok
      unfold balance_check at hok
      rw [if_pos hk, hbl] at hok
      simp at hok
  exact balance_loop_ok_mem tx.kind ic (total_outputs tx) hbl

/-- C4, witness for the amended theorem at the balanced fixture. -/
theorem c4_conservation_amended_witness :
    (5 : Nat) = (lookupD [(Denom.mel, 5)] Denom.mel).getD (U128LIM - 1) :=
  c4_conservation_amended (fun _ => 7) (fun _ _ _ => true) h_bal 0 tx_bal
    [(Denom.mel, 5)] [7] (by decide) rfl rfl (Denom.mel, 5)
    (by decide) (by decide) (by decide)

/-- C2, counterexample. The claim states that `CoinLocked` is raised
exactly when the referenced coin's stake is *active* (registered and with
the current epoch inside its validity range), and that a registered but
out-of-range stake leaves the coin spendable. Here the registered stake's
range `[5, 6)` does not contain the current epoch 0, so the stake is not
active, yet the code rejects the spend with `CoinLocked`: the source checks
only registration, never the epoch range. -/
theorem c2_coin_locked_counterexample :
    apply_tx_inputs (fun _ => 7) (fun _ _ _ => true) h_locked 0 tx_spend_locked =
      .error .coinLocked ∧
    h_locked.stakes 1 = some sd_out_of_range ∧
    ¬ stake_active (h_locked.height / STAKE_EPOCH) sd_out_of_range :=
  ⟨rfl, rfl, fun hact => absurd hact.1 (by decide)⟩

/-- C2, amended: for a single-input transaction, input application rejects
with `CoinLocked` exactly when a stake is registered under the input's
originating transaction hash — regardless of the stake's validity epoch
range. -/
theorem c2_coin_locked_amended (cov_hash : List Nat → Nat)
    (cov_check : List Nat → Transaction → CovenantEnv → Bool)
    (h : SHandle) (last_header : Nat) (tx : Transaction) (cid : CoinID)
    (hin : tx.inputs = [cid]) :
    apply_tx_inputs cov_hash cov_check h last_header tx = .error .coinLocked ↔
      (h.stakes cid.txhash).isSome = true := by
  unfold apply_tx_inputs apply_tx_inputs_log
  rw [hin]
  have henum : ([cid] : List CoinID).enum = [(0, cid)] := rfl
  rw [henum]
  by_cases hs : (h.stakes cid.txhash).isSome = true
  · have hgo : apply_tx_inputs_go cov_hash cov_check tx last_header h.stakes
        [(0, cid)] h.coins [] [] [] = .error .coinLocked := by
      simp only [apply_tx_inputs_go]
      rw [if_pos hs]
    rw [hgo]
    simp [hs]
  · have hsf : (h.stakes cid.txhash).isSome = false := by
      simpa using hs
    rcases hc : h.coins cid with _ | coin_data
    · have hgo : apply_tx_inputs_go cov_hash cov_check tx last_header h.stakes
          [(0, cid)] h.coins [] [] [] = .error (.nonexistentCoin cid) := by
        simp only [apply_tx_inputs_go]
        rw [if_neg hs]
        simp only [hc]
      rw [hgo]
      simp [hsf]
    · rcases hsg : script_gate cov_hash cov_check tx last_header 0 cid coin_data [] []
        with e | ⟨good', log'⟩
      · have hgo : apply_tx_inputs_go cov_hash cov_check tx last_header h.stakes
            [(0, cid)] h.coins [] [] [] = .error e := by
          simp only [apply_tx_inputs_go]
          rw [if_neg hs]
          simp only [hc, hsg]
        rw [hgo]
        rcases script_gate_error cov_hash cov_check tx last_header 0 cid coin_data
            [] [] e hsg with he | he
        · subst he
          simp [hsf]
        · subst he
          simp [hsf]
      · have hgo : apply_tx_inputs_go cov_hash cov_check tx last_header h.stakes
            [(0, cid)] h.coins [] [] [] =
            .ok (insertAdd [] coin_data.coin_data.denom coin_data.coin_data.value,
              log') := by
          simp only [apply_tx_inputs_go]
          rw [if_neg hs]
          simp only [hc, hsg, apply_tx_inputs_go]
        rw [hgo]
        rcases balance_check_ok_or tx.kind
            (insertAdd [] coin_data.coin_data.denom coin_data.coin_data.value)
            (total_outputs tx) with hbc | hbc
        · simp [hbc, hsf]
        · simp [hbc, hsf]

/-- C2, witness for the amended theorem at the locked fixture. -/
theorem c2_coin_locked_amended_witness :
    (apply_tx_inputs (fun _ => 7) (fun _ _ _ => true) h_locked 0 tx_spend_locked =
        .error .coinLocked ↔
      (h_locked.stakes 1).isSome = true) :=
  c2_coin_locked_amended (fun _ => 7) (fun _ _ _ => true) h_locked 0
    tx_spend_locked ⟨1, 0⟩ rfl

/-- C3, counterexample. The claim states that above the legacy height any
stake failing the qualification checks — including the check that the first
output is denominated in the staking unit — is silently rejected, with only
a malformed payload producing an error. `tx_stake_mel`'s payload decodes
fine, but its first output is denominated in `Mel`: the code produces the
batch error `MalformedTx` rather than silently rejecting. -/
theorem c3_stake_reject_counterexample :
    decode_stake_model tx_stake_mel.data = some ⟨2, 3, 4, 10⟩ ∧
    apply_tx_special_stake decode_stake_model .custom02 600000 tx_stake_mel =
      .error .malformedTx :=
  ⟨rfl, rfl⟩

/-- C3, amended: above the legacy height (or on a network where it does not
apply), a stake whose first output is not denominated in the staking unit
produces the batch error `MalformedTx`; only a stake whose first output is
in the staking unit but which fails the epoch-ordering or locked-amount
checks is silently rejected — success without registering the StakeDoc. -/
theorem c3_stake_reject_amended (decode_stake : List Nat → Option StakeDoc)
    (network : NetID) (height : Nat) (tx : Transaction)
    (sd : StakeDoc) (fc : CoinData)
    (hd : decode_stake tx.data = some sd)
    (hfc : tx.outputs.head? = some fc)
    (hleg : ¬((network = .mainnet ∨ network = .testnet) ∧ height < 500000)) :
    (fc.denom ≠ .sym →
      apply_tx_special_stake decode_stake network height tx = .error .malformedTx) ∧
    (fc.denom = .sym →
      ¬(sd.e_start > height / STAKE_EPOCH ∧ sd.e_post_end > sd.e_start ∧
          sd.syms_staked = fc.value) →
      apply_tx_special_stake decode_stake network height tx = .ok none) := by
  unfold apply_tx_special_stake
  simp only [hd, hfc]
  rw [if_neg hleg]
  constructor
  · intro hdenom
    rw [if_pos hdenom]
  · intro hdenom hcons
    rw [if_neg (fun hne => hne hdenom), if_neg hcons]

/-- C3, witness for the amended theorem: a `Sym`-denominated stake failing
the epoch-ordering check is silently accepted without registration. -/
theorem c3_stake_reject_amended_witness :
    apply_tx_special_stake decode_stake_model .custom02 600000 tx_stake_badepoch =
      .ok none :=
  (c3_stake_reject_amended decode_stake_model .custom02 600000 tx_stake_badepoch
    ⟨2, 0, 0, 10⟩ ⟨10, .sym, [], 7⟩ rfl rfl (by decide)).2 rfl (by decide)

/-- C5, counterexample. The claim states that on mainnet below height
500000 *every* stake-kind transaction is unconditionally accepted. A stake
transaction with an undecodable payload is rejected with `MalformedTx` even
there: the payload decode and the first-output lookup run before the legacy
branch. -/
theorem c5_legacy_stake_counterexample :
    tx_stake_nodata.kind = .stake ∧ (0 : Nat) < 500000 ∧
    decode_stake_model tx_stake_nodata.data = none ∧
    apply_tx_special_stake decode_stake_model .mainnet 0 tx_stake_nodata =
      .error .malformedTx :=
  ⟨rfl, by decide, rfl, rfl⟩

/-- C5, amended: on mainnet or testnet at a height strictly below 500000,
every stake-kind transaction whose payload decodes to a StakeDoc and which
has at least one output is accepted without registering the StakeDoc —
including when the first output is not denominated in the staking unit. -/
theorem c5_legacy_stake_amended (decode_stake : List Nat → Option StakeDoc)
    (network : NetID) (height : Nat) (tx : Transaction)
    (sd : StakeDoc) (fc : CoinData)
    (hd : decode_stake tx.data = some sd)
    (hfc : tx.outputs.head? = some fc)
    (hnet : network = .mainnet ∨ network = .testnet) (hh : height < 500000) :
    apply_tx_special_stake decode_stake network height tx = .ok none := by
  unfold apply_tx_special_stake
  simp only [hd, hfc]
  rw [if_pos ⟨hnet, hh⟩]

/-- C5, witness for the amended theorem: a below-threshold mainnet stake
whose first output is denominated in `Mel` is accepted unregistered. -/
theorem c5_legacy_stake_amended_witness :
    apply_tx_special_stake decode_stake_model .mainnet 499999 tx_stake_mel9 =
      .ok none :=
  c5_legacy_stake_amended decode_stake_model .mainnet 499999 tx_stake_mel9
    ⟨2, 9, 12, 10⟩ ⟨10, .mel, [], 7⟩ rfl rfl (Or.inl rfl) (by decide)

/-- C6: the admission pass deduplicates faucets through the pseudo-coin.
Processing a faucet transaction whose pseudo-coin id is not yet in the coin
view registers the zero-value marker under it, and a second faucet
transaction with the same signature-stripped content in the same batch is
rejected with `DuplicateTx`. -/
theorem c6_faucet_dedup (H : Transaction → Nat) (hk_fdp : Nat → Nat)
    (is_wf : Transaction → Bool) (base_fee : Nat → Transaction → Nat)
    (network : NetID) (fee_multiplier : Nat) (st0 : AdmissionState)
    (tx1 tx2 : Transaction)
    (h1 : tx1.kind = .faucet) (h2 : tx2.kind = .faucet)
    (hsame : strip_sigs tx1 = strip_sigs tx2)
    (hfresh : st0.coins (faucet_dedup_pseudocoin hk_fdp (hash_nosigs H tx1)) = none)
    (hwf : is_wf tx1 = true)
    (hnet : network ≠ .mainnet)
    (hfee : base_fee fee_multiplier tx1 ≤ tx1.fee) :
    admission_pass H hk_fdp is_wf base_fee network fee_multiplier [tx1, tx2] st0 =
      .error .duplicateTx ∧
    ∃ st1,
      admission_pass H hk_fdp is_wf base_fee network fee_multiplier [tx1] st0 =
        .ok st1 ∧
      st1.coins (faucet_dedup_pseudocoin hk_fdp (hash_nosigs H tx1)) =
        some faucet_marker := by
  have hnlt : ¬ (tx1.fee < base_fee fee_multiplier tx1) := Nat.not_lt.mpr hfee
  obtain ⟨st1, hstep1, hco⟩ :
      ∃ st1, admission_step H hk_fdp is_wf base_fee network fee_multiplier st0 tx1 =
          .ok st1 ∧
        st1.coins (faucet_dedup_pseudocoin hk_fdp (hash_nosigs H tx1)) =
          some faucet_marker := by
    refine ⟨{ coins := fun c =>
                if c = faucet_dedup_pseudocoin hk_fdp (hash_nosigs H tx1) then
                  some faucet_marker
                else st0.coins c,
              transactions := (hash_nosigs H tx1, tx1) :: st0.transactions,
              fees := ⟨sat_add st0.fees.fee_pool (base_fee fee_multiplier tx1),
                sat_add st0.fees.tips (tx1.fee - base_fee fee_multiplier tx1)⟩ },
      ?_, ?_⟩
    · unfold admission_step apply_tx_fees
      simp [h1, hfresh, hwf, hnet, hnlt]
    · simp
  have hpc2 : hash_nosigs H tx2 = hash_nosigs H tx1 := by
    unfold hash_nosigs
    rw [hsame]
  have hstep2 : admission_step H hk_fdp is_wf base_fee network fee_multiplier st1 tx2 =
      .error .duplicateTx := by
    unfold admission_step
    simp [h2, hpc2, hco]
  exact ⟨by simp only [admission_pass, hstep1, hstep2],
    ⟨st1, by simp only [admission_pass, hstep1], hco⟩⟩

/-- C6, witness: two concrete faucet transactions differing only in their
signatures collide on the pseudo-coin and the second is rejected. -/
theorem c6_faucet_dedup_witness :
    admission_pass (fun _ => 0) (fun n => n + 100) (fun _ => true) (fun _ _ => 0)
      .custom02 1 [tx_faucet_sig1, tx_faucet_sig2] st_adm0 = .error .duplicateTx :=
  (c6_faucet_dedup (fun _ => 0) (fun n => n + 100) (fun _ => true) (fun _ _ => 0)
    .custom02 1 st_adm0 tx_faucet_sig1 tx_faucet_sig2 rfl rfl (by decide) rfl rfl
    (by decide) (by decide)).1

/-- C7: the fee step rejects with `InsufficientFees(min_fee)` exactly when
the declared fee is strictly below the computed minimum, and otherwise
saturating-adds the minimum into the fee pool and the excess into the
tips. -/
theorem c7_fee_accrual (base_fee : Nat → Transaction → Nat) (fee_multiplier : Nat)
    (st : FeeState) (tx : Transaction) :
    (apply_tx_fees base_fee fee_multiplier st tx =
        .error (.insufficientFees (base_fee fee_multiplier tx)) ↔
      tx.fee < base_fee fee_multiplier tx) ∧
    (base_fee fee_multiplier tx ≤ tx.fee →
      apply_tx_fees base_fee fee_multiplier st tx =
        .ok ⟨sat_add st.fee_pool (base_fee fee_multiplier tx),
          sat_add st.tips (tx.fee - base_fee fee_multiplier tx)⟩) := by
  unfold apply_tx_fees
  constructor
  · by_cases hlt : tx.fee < base_fee fee_multiplier tx
    · rw [if_pos hlt]
      exact ⟨fun _ => hlt, fun _ => rfl⟩
    · rw [if_neg hlt]
      constructor
      · intro hx
        simp at hx
      · intro hlt'
        exact absurd hlt' hlt
  · intro hle
    rw [if_neg (Nat.not_lt.mpr hle)]

/-- C7, witness: a declared fee of 5 against a minimum of 3 accrues 3 into
the fee pool and 2 into the tips. -/
theorem c7_fee_accrual_witness :
    apply_tx_fees (fun _ _ => 3) 1 ⟨0, 0⟩ tx_fee5 =
      .ok ⟨sat_add 0 3, sat_add 0 2⟩ :=
  (c7_fee_accrual (fun _ _ => 3) 1 ⟨0, 0⟩ tx_fee5).2 (by decide)

/-- C8: covenant-VM arithmetic over the 256-bit unsigned value type.
Subtracting 2 from 1 (the top of the stack holding 1) wraps to the maximum
representable value; adding 1 and 2 yields 3; `Div` and `Rem` with a zero
divisor fault the evaluation rather than returning a value; bitwise `Not`
of 0 yields the all-ones value. -/
theorem c8_vm_arithmetic :
    run_ops [.pushI 2, .pushI 1, .sub] = some (.int (U256LIM - 1)) ∧
    run_ops [.pushI 1, .pushI 2, .add] = some (.int 3) ∧
    run_ops [.pushI 0, .pushI 7, .div] = none ∧
    run_ops [.pushI 0, .pushI 7, .rem] = none ∧
    run_ops [.pushI 0, .not] = some (.int (U256LIM - 1)) := by
  refine ⟨by decide, by decide, by decide, by decide, by decide⟩

/-- C9: covenant scripts are evaluated at most once per unique destination
hash per transaction — for any run of the input loop started with empty
good-script set and log, a successful run's evaluation log has no
duplicates; the concrete transaction spending two coins that share
destination hash 7 evaluates that script exactly once (log `[7]`); and the
same spend with no supplied script matching the destination fails with
`NonexistentScript`. -/
theorem c9_script_once :
    (∀ (cov_hash : List Nat → Nat)
      (cov_check : List Nat → Transaction → CovenantEnv → Bool)
      (tx : Transaction) (last_header : Nat) (stakes : Nat → Option StakeDoc)
      (inputs : List (Nat × CoinID)) (coins : CoinID → Option CoinDataHeight)
      (res : List (Denom × Nat) × List Nat),
      apply_tx_inputs_go cov_hash cov_check tx last_header stakes inputs coins
        [] [] [] = .ok res → res.2.Nodup) ∧
    apply_tx_inputs_log (fun _ => 7) (fun _ _ _ => true) h_two_shared 0
      tx_two_shared = .ok ([(.mel, 3)], [7]) ∧
    apply_tx_inputs (fun _ => 7) (fun _ _ _ => true) h_two_shared 0
      tx_two_shared_noscript = .error (.nonexistentScript 7) := by
  refine ⟨?_, rfl, rfl⟩
  intro cov_hash cov_check tx last_header stakes inputs coins res hok
  exact apply_tx_inputs_go_log_nodup cov_hash cov_check tx last_header stakes
    inputs coins [] [] [] (by simp) List.nodup_nil res hok

/-- C9, witness: the no-duplicates conclusion instantiated at the concrete
shared-destination run, whose log is `[7]`. -/
theorem c9_script_once_witness : ([7] : List Nat).Nodup :=
  c9_script_once.1 (fun _ => 7) (fun _ _ _ => true) tx_two_shared 0
    h_two_shared.stakes tx_two_shared.inputs.enum h_two_shared.coins
    ([(.mel, 3)], [7]) rfl

/-- C10: the proof-of-work mint validator is not total — both scenarios
reach the speed computation (the proof verifies under the legacy scheme)
and the model returns `none`, the modelled panic: a payload decoding to
difficulty 128 overflows `2u128.pow(difficulty)`, and a first input coin
created at the current height on a non-production network divides by a
zero coin age. -/
theorem c10_doscmint_panics :
    decode_dosc_model tx_dosc_diff128.data = some (128, []) ∧
    apply_tx_special_doscmint decode_dosc_model (fun _ => some [])
      (fun _ _ _ => true) (fun _ _ _ => false) (fun _ _ => 0)
      (fun _ _ _ _ => 0) (fun _ _ => 0) h_dosc_age100
      (fun _ => some ⟨0, 0⟩) tx_dosc_diff128 = none ∧
    h_dosc_age0.coins ⟨5, 0⟩ = some ⟨⟨1, .mel, [], 7⟩, 1000⟩ ∧
    h_dosc_age0.height = 1000 ∧
    decode_dosc_model tx_dosc_diff1.data = some (1, []) ∧
    apply_tx_special_doscmint decode_dosc_model (fun _ => some [])
      (fun _ _ _ => true) (fun _ _ _ => false) (fun _ _ => 0)
      (fun _ _ _ _ => 0) (fun _ _ => 0) h_dosc_age0
      (fun _ => some ⟨0, 0⟩) tx_dosc_diff1 = none :=
  ⟨rfl, rfl, rfl, rfl, rfl, rfl⟩

end ThemelioSTF
